import Mathlib

/-!
Verification of the client-side page loader (packages/next/client/page-loader.js).

JavaScript strings are modelled as lists of characters (List Char); JavaScript
exceptions as an Except value; the single-threaded promise/event-emitter state
of the PageLoader instance as an explicit record (LoaderState) threaded through
step functions. Each definition is a direct translation of the corresponding
function in page-loader.js, except where a doc comment says the definition is
modelled from the spec because the source is not part of this repository slice.
-/

/-- Convert a Lean string literal to the list-of-characters model of a
JavaScript string. -/
def toL (s : String) : List Char := s.data

deriving instance DecidableEq for Except

/-- Errors thrown or rejected by the page loader.  invalidRoute models the
plain Error thrown by normalizeRoute; pageLoadError models the code-tagged
PAGE_LOAD_ERROR Error built by pageLoadError(route) (the payload is the string
that was passed in, a route or a script url); custom models an arbitrary error
thrown by a page's register function. -/
inductive JsErr where
  | invalidRoute (route : List Char)
  | pageLoadError (route : List Char)
  | custom (id : Nat)
deriving DecidableEq, Repr

/-- Model of the single-trailing-slash strip performed by
route.replace(regex slash-at-end, empty): removes exactly one trailing
slash character when present, otherwise returns the string unchanged. -/
def stripTrailingSlash : List Char → List Char
  | [] => []
  | [c] => if c = '/' then [] else [c]
  | a :: c :: rest => a :: stripTrailingSlash (c :: rest)

/-- True when the string ends with a slash character (the trailing-slash
regex of normalizeRoute matches). -/
def hasTrailingSlash : List Char → Bool
  | [] => false
  | [c] => c = '/'
  | _ :: c :: rest => hasTrailingSlash (c :: rest)

/-- True when the string ends with two consecutive slash characters. -/
def endsWithTwoSlashes : List Char → Bool
  | [] => false
  | [_] => false
  | [a, b] => a = '/' ∧ b = '/'
  | _ :: c :: d :: rest => endsWithTwoSlashes (c :: d :: rest)

/-- Translation of normalizeRoute: throws when the first character is not a
slash (route[0] of the empty string is undefined, hence also a throw), returns
the root route unchanged, and otherwise strips one trailing slash. -/
def normalizeRoute (route : List Char) : Except JsErr (List Char) :=
  if route.head? ≠ some '/' then .error (.invalidRoute route)
  else if route = toL "/" then .ok route
  else .ok (stripTrailingSlash route)

/-- The two successive applications of normalizeRoute used to state
idempotence: the second application runs on the result of the first. -/
def normalizeTwice (route : List Char) : Except JsErr (List Char) :=
  match normalizeRoute route with
  | .error e => .error e
  | .ok t => normalizeRoute t

/-- Boolean prefix test on the character-list model of strings. -/
def isPrefixOfL : List Char → List Char → Bool
  | [], _ => true
  | _ :: _, [] => false
  | a :: as, b :: bs => if a = b then isPrefixOfL as bs else false

/-- Translation of getAssetPath: the root route maps to the index asset, a
route equal to the index route or starting with the index segment keeps an
extra index segment in front (the regex caret-slash-index-(slash-or-end)
test), and every other route passes through unchanged. -/
def getAssetPath (route : List Char) : List Char :=
  if route = toL "/" then toL "/index"
  else if route = toL "/index" ∨ isPrefixOfL (toL "/index/") route = true then
    toL "/index" ++ route
  else route

theorem stripTrailingSlash_single (c : Char) :
    stripTrailingSlash [c] = if c = '/' then [] else [c] := rfl

theorem stripTrailingSlash_cons2 (a c : Char) (rest : List Char) :
    stripTrailingSlash (a :: c :: rest) = a :: stripTrailingSlash (c :: rest) := rfl

theorem hasTrailingSlash_single (c : Char) :
    hasTrailingSlash [c] = decide (c = '/') := rfl

theorem hasTrailingSlash_cons2 (a c : Char) (rest : List Char) :
    hasTrailingSlash (a :: c :: rest) = hasTrailingSlash (c :: rest) := rfl

/-- A string with no trailing slash is unchanged by the trailing-slash strip. -/
theorem stripTrailingSlash_of_not_trailing :
    ∀ s : List Char, hasTrailingSlash s = false → stripTrailingSlash s = s := by
  intro s
  induction s with
  | nil => intro _; rfl
  | cons a t ih =>
    cases t with
    | nil =>
      intro h
      simp [hasTrailingSlash_single] at h
      simp [stripTrailingSlash_single, h]
    | cons c rest =>
      intro h
      rw [hasTrailingSlash_cons2] at h
      rw [stripTrailingSlash_cons2, ih h]

/-- Stripping one trailing slash from a string that does not end in two
slashes yields a string with no trailing slash. -/
theorem not_trailing_of_stripTrailingSlash :
    ∀ s : List Char, endsWithTwoSlashes s = false →
      hasTrailingSlash (stripTrailingSlash s) = false := by
  intro s
  induction s with
  | nil => intro _; rfl
  | cons a t ih =>
    cases t with
    | nil =>
      intro _
      by_cases h : a = '/'
      · simp [stripTrailingSlash_single, h, hasTrailingSlash]
      · simp [stripTrailingSlash_single, h, hasTrailingSlash_single]
    | cons c rest =>
      cases rest with
      | nil =>
        intro h2
        have h2' : ¬(a = '/' ∧ c = '/') := by
          intro hac
          simp [endsWithTwoSlashes, hac.1, hac.2] at h2
        rw [stripTrailingSlash_cons2]
        by_cases hc : c = '/'
        · have ha : ¬ a = '/' := fun ha => h2' ⟨ha, hc⟩
          simp [stripTrailingSlash_single, hc, hasTrailingSlash_single, ha]
        · simp [stripTrailingSlash_single, hc, hasTrailingSlash_cons2,
            hasTrailingSlash_single]
      | cons d rest' =>
        intro h2
        have h2' : endsWithTwoSlashes (c :: d :: rest') = false := h2
        rw [stripTrailingSlash_cons2]
        have hne : stripTrailingSlash (c :: d :: rest') =
            c :: stripTrailingSlash (d :: rest') := stripTrailingSlash_cons2 c d rest'
        rw [hne, hasTrailingSlash_cons2, ← hne]
        exact ih h2'

/-- The trailing-slash strip keeps the first character of any string other
than the lone root slash. -/
theorem stripTrailingSlash_head (a : Char) (t : List Char)
    (h : a :: t ≠ toL "/") :
    (stripTrailingSlash (a :: t)).head? = some a := by
  cases t with
  | nil =>
    have ha : ¬ a = '/' := by
      intro ha; exact h (by simp [toL, ha])
    simp [stripTrailingSlash_single, ha]
  | cons c rest => simp [stripTrailingSlash_cons2]

/-- On a non-root route with a leading slash, normalizeRoute strips one
trailing slash. -/
theorem normalizeRoute_eq_strip (s : List Char)
    (hhead : s.head? = some '/') (hroot : s ≠ toL "/") :
    normalizeRoute s = .ok (stripTrailingSlash s) := by
  unfold normalizeRoute
  simp [hhead, hroot]

/-- Every successful result of normalizeRoute starts with a slash. -/
theorem normalizeRoute_ok_head (s t : List Char)
    (h : normalizeRoute s = .ok t) : t.head? = some '/' := by
  unfold normalizeRoute at h
  by_cases hh : s.head? = some '/'
  · simp [hh] at h
    by_cases hr : s = toL "/"
    · simp [hr] at h
      simp [← h, hr, toL]
    · simp [hr] at h
      cases s with
      | nil => simp at hh
      | cons a rest =>
        have ha : a = '/' := by simpa using hh
        rw [← h, stripTrailingSlash_head a rest hr, ha]
  · simp [hh] at h

/-- A route with a leading slash and no trailing slash (or the root route)
is a fixed point of normalizeRoute. -/
theorem normalizeRoute_fixed (t : List Char)
    (hhead : t.head? = some '/')
    (h : hasTrailingSlash t = false ∨ t = toL "/") :
    normalizeRoute t = .ok t := by
  by_cases hr : t = toL "/"
  · rw [hr]; decide
  · rcases h with h | h
    · unfold normalizeRoute
      simp [hhead, hr, stripTrailingSlash_of_not_trailing t h]
    · exact absurd h hr

/-- C3 counterexample: route normalization is not idempotent on an input
with two trailing slashes; each application strips exactly one slash, so
normalizing the route slash-foo-slash-slash twice gives slash-foo while
normalizing it once gives slash-foo-slash. -/
theorem normalizeRoute_not_idempotent_example :
    normalizeTwice (toL "/foo//") ≠ normalizeRoute (toL "/foo//") ∧
    normalizeRoute (toL "/foo//") = .ok (toL "/foo/") ∧
    normalizeTwice (toL "/foo//") = .ok (toL "/foo") := by
  refine ⟨?_, ?_, ?_⟩ <;> decide

/-- C3 (amended): for every input that begins with a slash and does not end
with two consecutive slashes, normalizing the route twice equals normalizing
it once; inputs with two or more trailing slashes lose exactly one slash per
application and are not idempotent. -/
theorem normalizeRoute_idempotent_amended (s : List Char)
    (hhead : s.head? = some '/')
    (h2 : endsWithTwoSlashes s = false) :
    normalizeTwice s = normalizeRoute s := by
  by_cases hr : s = toL "/"
  · subst hr; decide
  · have h1 := normalizeRoute_eq_strip s hhead hr
    unfold normalizeTwice
    rw [h1]
    have hh : (stripTrailingSlash s).head? = some '/' := by
      cases s with
      | nil => simp at hhead
      | cons a rest =>
        have ha : a = '/' := by simpa using hhead
        rw [stripTrailingSlash_head a rest hr, ha]
    exact normalizeRoute_fixed _ hh
      (Or.inl (not_trailing_of_stripTrailingSlash s h2))

/-- C3 witness: the amended idempotence holds on the concrete route
slash-foo-slash, whose single trailing slash is stripped by the first
application and nothing by the second. -/
theorem normalizeRoute_idempotent_amended_witness :
    normalizeTwice (toL "/foo/") = normalizeRoute (toL "/foo/") :=
  normalizeRoute_idempotent_amended (toL "/foo/") (by decide) (by decide)

/-- True exactly when the call threw (the returned value is an error). -/
def isErrorResult {α : Type} : Except JsErr α → Bool
  | .error _ => true
  | .ok _ => false

/-- C8: normalizeRoute throws the invalid-route error exactly on the inputs
that do not begin with a slash (the empty string included, since indexing it
at zero yields undefined); every input beginning with a slash returns
normally. -/
theorem normalizeRoute_error_iff (s : List Char) :
    isErrorResult (normalizeRoute s) = true ↔ s.head? ≠ some '/' := by
  unfold normalizeRoute
  by_cases hh : s.head? = some '/'
  · rw [if_neg (by simp [hh])]
    constructor
    · intro hc
      by_cases hr : s = toL "/" <;> simp [hr, isErrorResult] at hc
    · intro hcontra; exact absurd hh hcontra
  · rw [if_pos hh]
    simp [isErrorResult, hh]

/-- A prefix is never longer than the string it is a prefix of. -/
theorem isPrefixOfL_length :
    ∀ p s : List Char, isPrefixOfL p s = true → p.length ≤ s.length := by
  intro p
  induction p with
  | nil => intro s _; simp
  | cons a as ih =>
    intro s h
    cases s with
    | nil => simp [isPrefixOfL] at h
    | cons b bs =>
      by_cases hab : a = b
      · simp [isPrefixOfL, hab] at h
        simpa using ih bs h
      · simp [isPrefixOfL, hab] at h

/-- C9: getAssetPath maps the root route to the index asset path, prepends an
extra index segment to every route that is the index route or starts with the
index segment, and passes every other route through unchanged; in particular
the three concrete mappings named by the spec hold. -/
theorem getAssetPath_mapping :
    getAssetPath (toL "/") = toL "/index" ∧
    getAssetPath (toL "/index/foo") = toL "/index/index/foo" ∧
    getAssetPath (toL "/foo") = toL "/foo" ∧
    (∀ route : List Char,
      route = toL "/index" ∨ isPrefixOfL (toL "/index/") route = true →
      getAssetPath route = toL "/index" ++ route) ∧
    (∀ route : List Char, route ≠ toL "/" →
      ¬(route = toL "/index" ∨ isPrefixOfL (toL "/index/") route = true) →
      getAssetPath route = route) := by
  refine ⟨by decide, by decide, by decide, ?_, ?_⟩
  · intro route h
    have hroot : route ≠ toL "/" := by
      rcases h with h | h
      · subst h; decide
      · intro hr
        have := isPrefixOfL_length (toL "/index/") route h
        rw [hr] at this
        simp [toL] at this
    unfold getAssetPath
    rw [if_neg hroot, if_pos h]
  · intro route hroot hno
    unfold getAssetPath
    rw [if_neg hroot, if_neg hno]

/-- C9 witness: the index-prefixed branch of the mapping applied to the
concrete route slash-index-slash-bar. -/
theorem getAssetPath_mapping_witness :
    getAssetPath (toL "/index/bar") = toL "/index" ++ toL "/index/bar" :=
  getAssetPath_mapping.2.2.2.1 (toL "/index/bar") (Or.inr (by decide))

/-- Static configuration of the loader: the NODE_ENV production flag, the
modern-build flag together with noModule support, the asset prefix and the
build id passed to the PageLoader constructor, and the link relation chosen
once at startup (prefetch, or preload when prefetch is unsupported). -/
structure Env where
  isProd : Bool
  modernBuild : Bool
  hasNoModule : Bool
  assetBase : List Char
  buildId : List Char
  relPrefetch : List Char
deriving DecidableEq, Repr

/-- The value a page's register function produces: a module object with an
optional (truthy) default export; module values are abstracted as numeric
identities. -/
structure JsModule where
  defaultExport : Option Nat
  modId : Nat
deriving DecidableEq, Repr

/-- A pageCache entry and, equally, the payload broadcast on the
pageRegisterEvents channel: either the registered page and module, or a
load error. -/
inductive PageEntry where
  | success (page : Nat) (mod : Nat)
  | failure (err : JsErr)
deriving DecidableEq, Repr

/-- The observable state of one loadPage promise. -/
inductive PromiseState where
  | pending
  | resolvedWith (page : Nat) (mod : Nat)
  | rejectedWith (err : JsErr)
deriving DecidableEq, Repr

/-- The settlement a fire listener performs for a broadcast payload: reject
with the error when one is present, else resolve with the page and module. -/
def settledOf : PageEntry → PromiseState
  | .success page mod => .resolvedWith page mod
  | .failure err => .rejectedWith err

/-- One dependency-fetch / script-injection sequence kicked off by loadPage
for a route that was not yet loading: in production the getDependencies chain,
in development a direct script injection for the page bundle url. -/
inductive LoadAction where
  | fetchDeps (route : List Char)
  | injectScript (url : List Char) (route : List Char)
deriving DecidableEq, Repr

/-- The mutable state owned by a PageLoader instance, together with a log of
issued load sequences and the settlement state of every promise loadPage has
handed out (promises are keyed by a caller-chosen identifier). -/
structure LoaderState where
  pageCache : List (List Char × PageEntry)
  loadingRoutes : List (List Char)
  subscribers : List (List Char × Nat)
  promises : List (Nat × PromiseState)
  depLog : List LoadAction
deriving DecidableEq, Repr

/-- First-match association lookup, modelling a JavaScript object used as a
string-keyed map. -/
def lookupRoute {α : Type} : List (List Char × α) → List Char → Option α
  | [], _ => none
  | (k, v) :: rest, r => if k = r then some v else lookupRoute rest r

/-- JavaScript object assignment on a string-keyed map: replace the entry when
the key is present, append it otherwise. -/
def setRoute (m : List (List Char × PageEntry)) (route : List Char)
    (e : PageEntry) : List (List Char × PageEntry) :=
  if (lookupRoute m route).isSome then
    m.map (fun p => if p.1 = route then (route, e) else p)
  else m ++ [(route, e)]

/-- Settle one promise: a pending promise with the given identifier takes the
payload's outcome; an already settled promise is unchanged (resolve and reject
are no-ops after the first settlement). -/
def settlePromise (ps : List (Nat × PromiseState)) (pid : Nat)
    (payload : PageEntry) : List (Nat × PromiseState) :=
  ps.map (fun p =>
    if p.1 = pid ∧ p.2 = PromiseState.pending then (p.1, settledOf payload) else p)

/-- The promise identifiers currently subscribed (via a fire listener) to a
route's pageRegisterEvents key, in subscription order. -/
def subscribedPids (subs : List (List Char × Nat)) (route : List Char) :
    List Nat :=
  (subs.filter (fun s => s.1 = route)).map (fun s => s.2)

/-- Broadcast a payload on a route's pageRegisterEvents key, running every
fire listener registered for that route: each listener unsubscribes itself,
deletes the route from loadingRoutes (a no-op when no listener ran), and
settles its promise with the payload's outcome. -/
def emitRoute (st : LoaderState) (route : List Char) (payload : PageEntry) :
    LoaderState :=
  let pids := subscribedPids st.subscribers route
  { pageCache := st.pageCache
    loadingRoutes :=
      if pids = [] then st.loadingRoutes
      else st.loadingRoutes.filter (fun r => ¬(r = route))
    subscribers := st.subscribers.filter (fun s => ¬(s.1 = route))
    promises := pids.foldl (fun ps pid => settlePromise ps pid payload) st.promises
    depLog := st.depLog }

/-- Characters left unescaped by both encodeURI and encodeURIComponent:
ASCII letters, digits, and the marks dash, underscore, dot, bang, tilde,
star, apostrophe and parentheses. -/
def isUriMark (c : Char) : Bool :=
  ('A' ≤ c && c ≤ 'Z') || ('a' ≤ c && c ≤ 'z') || ('0' ≤ c && c ≤ '9') ||
  c == '-' || c == '_' || c == '.' || c == '!' || c == '~' || c == '*' ||
  c == Char.ofNat 39 || c == '(' || c == ')'

/-- The uri-reserved characters that encodeURI (but not encodeURIComponent)
also leaves unescaped. -/
def isUriReserved (c : Char) : Bool :=
  c == ';' || c == '/' || c == '?' || c == ':' || c == '@' || c == '&' ||
  c == '=' || c == '+' || c == '$' || c == ',' || c == '#'

/-- Uppercase hexadecimal digit for a value below sixteen. -/
def hexDigitChar (n : Nat) : Char :=
  if n < 10 then Char.ofNat (48 + n) else Char.ofNat (55 + n)

/-- UTF-8 byte sequence of a unicode scalar value. -/
def utf8Bytes (c : Char) : List Nat :=
  let n := c.toNat
  if n < 128 then [n]
  else if n < 2048 then [192 + n / 64, 128 + n % 64]
  else if n < 65536 then [224 + n / 4096, 128 + (n / 64) % 64, 128 + n % 64]
  else [240 + n / 262144, 128 + (n / 4096) % 64, 128 + (n / 64) % 64,
    128 + n % 64]

/-- Percent-escape of one byte: a percent sign and two uppercase hex digits. -/
def percentByte (b : Nat) : List Char :=
  ['%', hexDigitChar (b / 16), hexDigitChar (b % 16)]

/-- Keep a character the predicate accepts, percent-encode the UTF-8 bytes of
every other character. -/
def percentEncodeChar (keep : Char → Bool) (c : Char) : List Char :=
  if keep c then [c]
  else (utf8Bytes c).foldr (fun b acc => percentByte b ++ acc) []

/-- Model of encodeURIComponent: escapes everything except letters, digits
and the uri marks. -/
def encodeURIComponent (s : List Char) : List Char :=
  s.foldr (fun c acc => percentEncodeChar isUriMark c ++ acc) []

/-- Model of encodeURI: escapes everything except letters, digits, the uri
marks and the uri-reserved characters. -/
def encodeURI (s : List Char) : List Char :=
  s.foldr (fun c acc =>
    percentEncodeChar (fun c => isUriMark c || isUriReserved c) c ++ acc) []

/-- The development-mode page bundle url built inside loadPage:
the asset prefix, then /_next/static/pages, then the uri-encoded asset path
of the route, then the .js extension. -/
def devScriptUrl (env : Env) (route : List Char) : List Char :=
  env.assetBase ++ toL "/_next/static/pages" ++
    encodeURI (getAssetPath route) ++ toL ".js"

/-- Body of the PageLoader.loadPage translation, run on the already
normalized route: a cached entry settles the new promise immediately; an
uncached route subscribes a fire listener and, when the route is not already
in loadingRoutes, marks it loading and issues exactly one load sequence (the
getDependencies chain in production; in development a second normalization,
then a direct script injection of the page bundle).  A thrown invalid-route
error surfaces as an Except error. -/
def loadPageNorm (env : Env) (st : LoaderState) (pid : Nat)
    (nroute : List Char) : Except JsErr LoaderState :=
  match lookupRoute st.pageCache nroute with
    | some (PageEntry.failure err) =>
        .ok { st with
          promises := st.promises ++ [(pid, PromiseState.rejectedWith err)] }
    | some (PageEntry.success page mod) =>
        .ok { st with
          promises := st.promises ++ [(pid, PromiseState.resolvedWith page mod)] }
    | none =>
      let subscribed : LoaderState :=
        { st with
          promises := st.promises ++ [(pid, PromiseState.pending)]
          subscribers := st.subscribers ++ [(nroute, pid)] }
      if nroute ∈ st.loadingRoutes then .ok subscribed
      else
        let marked : LoaderState :=
          { subscribed with loadingRoutes := subscribed.loadingRoutes ++ [nroute] }
        if env.isProd then
          .ok { marked with
            depLog := marked.depLog ++ [LoadAction.fetchDeps nroute] }
        else
          match normalizeRoute nroute with
          | .error e => .error e
          | .ok nroute2 =>
            .ok { marked with
              depLog := marked.depLog ++
                [LoadAction.injectScript (devScriptUrl env nroute2) nroute2] }

/-- Entry point of the loadPage translation: normalize the route, then run
the promise-executor body on the normalized route. -/
def loadPage (env : Env) (st : LoaderState) (pid : Nat) (route : List Char) :
    Except JsErr LoaderState :=
  match normalizeRoute route with
  | .error e => .error e
  | .ok nroute => loadPageNorm env st pid nroute

/-- The cache entry and broadcast payload registerPage builds from the result
of the page's register function: on a normal return, the page is the module's
truthy default export or else the module itself; on a throw, the error. -/
def registerEntry (regFn : Except JsErr JsModule) : PageEntry :=
  match regFn with
  | .ok m => .success (m.defaultExport.getD m.modId) m.modId
  | .error e => .failure e

/-- Translation of PageLoader.registerPage (the register closure): run the
register function, write the resulting entry into pageCache, then broadcast
it on the route's event key.  In development this effect is deferred until
webpack reports idle, then performed identically. -/
def registerPage (st : LoaderState) (route : List Char)
    (regFn : Except JsErr JsModule) : LoaderState :=
  let payload := registerEntry regFn
  emitRoute { st with pageCache := setRoute st.pageCache route payload }
    route payload

/-- Translation of the script onerror handler installed by loadScript: emit a
page-load error that carries the script url on the route's event key.  The
pageCache is not touched. -/
def loadScriptOnError (st : LoaderState) (url : List Char)
    (route : List Char) : LoaderState :=
  emitRoute st route (.failure (.pageLoadError url))

/-- Unfolding lemma: loadPage on a route that normalizes successfully is the
body run on the normalized route. -/
theorem loadPage_eq_norm (env : Env) (st : LoaderState) (pid : Nat)
    (route nroute : List Char) (hn : normalizeRoute route = .ok nroute) :
    loadPage env st pid route = loadPageNorm env st pid nroute := by
  unfold loadPage
  rw [hn]

/-- A cached failure settles the promise as rejected with the cached error
and changes nothing else. -/
theorem loadPageNorm_cached_failure (env : Env) (st : LoaderState) (pid : Nat)
    (nroute : List Char) (err : JsErr)
    (hc : lookupRoute st.pageCache nroute = some (PageEntry.failure err)) :
    loadPageNorm env st pid nroute =
      .ok { st with
        promises := st.promises ++ [(pid, PromiseState.rejectedWith err)] } := by
  unfold loadPageNorm
  rw [hc]

/-- A cached success settles the promise as resolved with the cached page and
module and changes nothing else. -/
theorem loadPageNorm_cached_success (env : Env) (st : LoaderState) (pid : Nat)
    (nroute : List Char) (page mod : Nat)
    (hc : lookupRoute st.pageCache nroute = some (PageEntry.success page mod)) :
    loadPageNorm env st pid nroute =
      .ok { st with
        promises := st.promises ++ [(pid, PromiseState.resolvedWith page mod)] } := by
  unfold loadPageNorm
  rw [hc]

/-- An uncached route already in the loading set only subscribes: exactly one
pending promise and one listener are appended; cache, loading set and load
log are untouched. -/
theorem loadPageNorm_loading (env : Env) (st : LoaderState) (pid : Nat)
    (nroute : List Char)
    (hc : lookupRoute st.pageCache nroute = none)
    (hl : nroute ∈ st.loadingRoutes) :
    loadPageNorm env st pid nroute =
      .ok { st with
        promises := st.promises ++ [(pid, PromiseState.pending)]
        subscribers := st.subscribers ++ [(nroute, pid)] } := by
  unfold loadPageNorm
  rw [hc]
  simp [hl]

/-- In production an uncached route not yet loading subscribes, marks itself
loading and issues the getDependencies chain. -/
theorem loadPageNorm_start_prod (env : Env) (st : LoaderState) (pid : Nat)
    (nroute : List Char)
    (hc : lookupRoute st.pageCache nroute = none)
    (hl : nroute ∉ st.loadingRoutes)
    (hp : env.isProd = true) :
    loadPageNorm env st pid nroute =
      .ok { st with
        promises := st.promises ++ [(pid, PromiseState.pending)]
        subscribers := st.subscribers ++ [(nroute, pid)]
        loadingRoutes := st.loadingRoutes ++ [nroute]
        depLog := st.depLog ++ [LoadAction.fetchDeps nroute] } := by
  unfold loadPageNorm
  rw [hc]
  simp [hl, hp]

/-- In development an uncached route not yet loading subscribes, marks itself
loading, normalizes again and injects the page bundle script directly. -/
theorem loadPageNorm_start_dev (env : Env) (st : LoaderState) (pid : Nat)
    (nroute nroute2 : List Char)
    (hc : lookupRoute st.pageCache nroute = none)
    (hl : nroute ∉ st.loadingRoutes)
    (hp : env.isProd = false)
    (hn2 : normalizeRoute nroute = .ok nroute2) :
    loadPageNorm env st pid nroute =
      .ok { st with
        promises := st.promises ++ [(pid, PromiseState.pending)]
        subscribers := st.subscribers ++ [(nroute, pid)]
        loadingRoutes := st.loadingRoutes ++ [nroute]
        depLog := st.depLog ++
          [LoadAction.injectScript (devScriptUrl env nroute2) nroute2] } := by
  unfold loadPageNorm
  rw [hc]
  simp [hl, hp, hn2]

/-- Every route beginning with a slash normalizes successfully. -/
theorem normalizeRoute_ok_exists (t : List Char)
    (hhead : t.head? = some '/') : ∃ u, normalizeRoute t = .ok u := by
  unfold normalizeRoute
  rw [if_neg (by simp [hhead])]
  by_cases hr : t = toL "/"
  · exact ⟨t, by rw [if_pos hr]⟩
  · exact ⟨stripTrailingSlash t, by rw [if_neg hr]⟩

/-- An uncached route not yet loading subscribes, marks itself loading, and
issues exactly one load sequence, in either build mode. -/
theorem loadPageNorm_start (env : Env) (st : LoaderState) (pid : Nat)
    (nroute : List Char)
    (hc : lookupRoute st.pageCache nroute = none)
    (hl : nroute ∉ st.loadingRoutes)
    (hhead : nroute.head? = some '/') :
    ∃ a, loadPageNorm env st pid nroute =
      .ok { st with
        promises := st.promises ++ [(pid, PromiseState.pending)]
        subscribers := st.subscribers ++ [(nroute, pid)]
        loadingRoutes := st.loadingRoutes ++ [nroute]
        depLog := st.depLog ++ [a] } := by
  cases hp : env.isProd with
  | true =>
    exact ⟨LoadAction.fetchDeps nroute,
      loadPageNorm_start_prod env st pid nroute hc hl hp⟩
  | false =>
    obtain ⟨n2, hn2⟩ := normalizeRoute_ok_exists nroute hhead
    exact ⟨LoadAction.injectScript (devScriptUrl env n2) n2,
      loadPageNorm_start_dev env st pid nroute n2 hc hl hp hn2⟩

/-- The body of loadPage never writes, clears, or replaces any pageCache
entry. -/
theorem loadPageNorm_pageCache_eq (env : Env) (st : LoaderState) (pid : Nat)
    (nroute : List Char) (st' : LoaderState)
    (h : loadPageNorm env st pid nroute = .ok st') :
    st'.pageCache = st.pageCache := by
  unfold loadPageNorm at h
  cases hc : lookupRoute st.pageCache nroute with
  | some entry =>
    rw [hc] at h
    cases entry with
    | success page mod => simp at h; rw [← h]
    | failure err => simp at h; rw [← h]
  | none =>
    rw [hc] at h
    by_cases hl : nroute ∈ st.loadingRoutes
    · simp [hl] at h
      rw [← h]
    · simp only [hl, if_false] at h
      cases hp : env.isProd with
      | true =>
        rw [hp] at h
        simp at h
        rw [← h]
      | false =>
        rw [hp] at h
        simp only [Bool.false_eq_true, if_false] at h
        cases hn2 : normalizeRoute nroute with
        | error e => rw [hn2] at h; simp at h
        | ok nroute2 =>
          rw [hn2] at h
          simp at h
          rw [← h]

/-- loadPage never writes, clears, or replaces any pageCache entry: every
successful step leaves the cache exactly as it was. -/
theorem loadPage_pageCache_eq (env : Env) (st : LoaderState) (pid : Nat)
    (route : List Char) (st' : LoaderState)
    (h : loadPage env st pid route = .ok st') : st'.pageCache = st.pageCache := by
  unfold loadPage at h
  cases hn : normalizeRoute route with
  | error e => rw [hn] at h; simp at h
  | ok nroute =>
    rw [hn] at h
    exact loadPageNorm_pageCache_eq env st pid nroute st' h

/-- C2: once the pageCache holds a failure entry for a route, loadPage for
that route settles the new promise as rejected with the cached error and
changes nothing else — no listener is registered, the loading set and the
load log are untouched (no dependency resolution, no script injection); and
since no loadPage step ever modifies the cache, the loader has no retry path
and the route stays failed. -/
theorem loadPage_cached_failure :
    (∀ (env : Env) (st : LoaderState) (pid : Nat) (route nroute : List Char)
      (err : JsErr),
      normalizeRoute route = .ok nroute →
      lookupRoute st.pageCache nroute = some (PageEntry.failure err) →
      loadPage env st pid route =
        .ok { st with
          promises := st.promises ++ [(pid, PromiseState.rejectedWith err)] }) ∧
    (∀ (env : Env) (st : LoaderState) (pid : Nat) (route : List Char)
      (st' : LoaderState),
      loadPage env st pid route = .ok st' → st'.pageCache = st.pageCache) := by
  constructor
  · intro env st pid route nroute err hn hc
    rw [loadPage_eq_norm env st pid route nroute hn]
    exact loadPageNorm_cached_failure env st pid nroute err hc
  · exact loadPage_pageCache_eq

/-- C2 witness: with a cached failure for route slash-x, a concrete loadPage
call rejects with that cached error and leaves the state otherwise
unchanged. -/
theorem loadPage_cached_failure_witness :
    loadPage (Env.mk false false false [] (toL "b") (toL "prefetch"))
      (LoaderState.mk
        [(toL "/x", PageEntry.failure (JsErr.pageLoadError (toL "/x")))]
        [] [] [] [])
      0 (toL "/x") =
    .ok (LoaderState.mk
      [(toL "/x", PageEntry.failure (JsErr.pageLoadError (toL "/x")))]
      [] [] [(0, PromiseState.rejectedWith (JsErr.pageLoadError (toL "/x")))] []) :=
  loadPage_cached_failure.1
    (Env.mk false false false [] (toL "b") (toL "prefetch"))
    (LoaderState.mk
      [(toL "/x", PageEntry.failure (JsErr.pageLoadError (toL "/x")))]
      [] [] [] [])
    0 (toL "/x") (toL "/x") (JsErr.pageLoadError (toL "/x"))
    (by decide) (by decide)

/-- Replacing the entry at one key leaves lookups of that key with the new
value. -/
theorem lookup_mapReplace (e : PageEntry) :
    ∀ (m : List (List Char × PageEntry)) (r : List Char),
      (lookupRoute m r).isSome →
      lookupRoute (m.map (fun p => if p.1 = r then (r, e) else p)) r = some e := by
  intro m
  induction m with
  | nil => intro r h; simp [lookupRoute] at h
  | cons kv rest ih =>
    intro r h
    obtain ⟨k, v⟩ := kv
    by_cases hk : k = r
    · simp only [List.map_cons]
      rw [show (if (k, v).1 = r then (r, e) else (k, v)) = (r, e) from if_pos hk]
      simp [lookupRoute]
    · simp only [List.map_cons]
      rw [show (if (k, v).1 = r then (r, e) else (k, v)) = (k, v) from if_neg hk]
      simp only [lookupRoute, if_neg hk] at h ⊢
      exact ih r h

/-- Replacing the entry at one key leaves lookups of every other key
unchanged. -/
theorem lookup_mapReplace_other (e : PageEntry) :
    ∀ (m : List (List Char × PageEntry)) (r r' : List Char), r' ≠ r →
      lookupRoute (m.map (fun p => if p.1 = r then (r, e) else p)) r' =
        lookupRoute m r' := by
  intro m
  induction m with
  | nil => intro r r' _; rfl
  | cons kv rest ih =>
    intro r r' hne
    obtain ⟨k, v⟩ := kv
    by_cases hk : k = r
    · have hkr' : ¬ k = r' := fun h => hne (h ▸ hk ▸ rfl)
      have hrr' : ¬ r = r' := fun h => hne h.symm
      simp only [List.map_cons]
      rw [show (if (k, v).1 = r then (r, e) else (k, v)) = (r, e) from if_pos hk]
      simp only [lookupRoute, if_neg hrr', if_neg hkr']
      exact ih r r' hne
    · simp only [List.map_cons]
      rw [show (if (k, v).1 = r then (r, e) else (k, v)) = (k, v) from if_neg hk]
      by_cases hk' : k = r'
      · simp only [lookupRoute, if_pos hk']
      · simp only [lookupRoute, if_neg hk']
        exact ih r r' hne

/-- Appending a fresh entry makes its key found when it was absent before. -/
theorem lookup_append_self (e : PageEntry) :
    ∀ (m : List (List Char × PageEntry)) (r : List Char),
      lookupRoute m r = none → lookupRoute (m ++ [(r, e)]) r = some e := by
  intro m
  induction m with
  | nil => intro r _; simp [lookupRoute]
  | cons kv rest ih =>
    intro r h
    obtain ⟨k, v⟩ := kv
    by_cases hk : k = r
    · simp only [lookupRoute, if_pos hk] at h
      cases h
    · simp only [lookupRoute, if_neg hk] at h
      simp only [List.cons_append, lookupRoute, if_neg hk]
      exact ih r h

/-- Appending an entry for one key leaves lookups of every other key
unchanged. -/
theorem lookup_append_other (e : PageEntry) :
    ∀ (m : List (List Char × PageEntry)) (r r' : List Char), r' ≠ r →
      lookupRoute (m ++ [(r, e)]) r' = lookupRoute m r' := by
  intro m
  induction m with
  | nil =>
    intro r r' hne
    have : ¬ r = r' := fun h => hne h.symm
    simp [lookupRoute, this]
  | cons kv rest ih =>
    intro r r' hne
    obtain ⟨k, v⟩ := kv
    by_cases hk' : k = r'
    · simp only [List.cons_append, lookupRoute, if_pos hk']
    · simp only [List.cons_append, lookupRoute, if_neg hk']
      exact ih r r' hne

/-- JavaScript object assignment: afterwards the assigned key holds the new
value. -/
theorem lookup_setRoute_self (m : List (List Char × PageEntry))
    (route : List Char) (e : PageEntry) :
    lookupRoute (setRoute m route e) route = some e := by
  unfold setRoute
  by_cases h : (lookupRoute m route).isSome
  · rw [if_pos h]
    exact lookup_mapReplace e m route h
  · rw [if_neg h]
    have hnone : lookupRoute m route = none := by
      cases hc : lookupRoute m route with
      | none => rfl
      | some v => rw [hc] at h; simp at h
    exact lookup_append_self e m route hnone

/-- JavaScript object assignment: every other key is unchanged. -/
theorem lookup_setRoute_other (m : List (List Char × PageEntry))
    (route r' : List Char) (e : PageEntry) (hne : r' ≠ route) :
    lookupRoute (setRoute m route e) r' = lookupRoute m r' := by
  unfold setRoute
  by_cases h : (lookupRoute m route).isSome
  · rw [if_pos h]
    exact lookup_mapReplace_other e m route r' hne
  · rw [if_neg h]
    exact lookup_append_other e m route r' hne

/-- Broadcasting never touches the pageCache. -/
theorem emitRoute_pageCache_eq (st : LoaderState) (route : List Char)
    (payload : PageEntry) : (emitRoute st route payload).pageCache = st.pageCache :=
  rfl

/-- C5 counterexample: a pageCache entry is not immutable.  Starting from a
state whose cache already holds a success entry for route slash-x, a later
registerPage call for the same route replaces the entry — the last writer
wins, not the first. -/
theorem registerPage_overwrites_example :
    lookupRoute
      (LoaderState.mk [(toL "/x", PageEntry.success 1 1)] [] [] [] []).pageCache
      (toL "/x") = some (PageEntry.success 1 1) ∧
    lookupRoute
      (registerPage (LoaderState.mk [(toL "/x", PageEntry.success 1 1)] [] [] [] [])
        (toL "/x") (.ok (JsModule.mk (some 2) 3))).pageCache
      (toL "/x") = some (PageEntry.success 2 3) ∧
    (PageEntry.success 2 3 : PageEntry) ≠ PageEntry.success 1 1 := by
  refine ⟨by decide, by decide, by decide⟩

/-- C5 (amended): the pageCache entry for a route is written only by
registerPage; a registerPage call always writes the entry computed from its
register function, overwriting any existing entry for that route (last
writer wins) while leaving every other route's entry alone; loadPage steps
and script-failure events never create, modify, or remove any entry, so no
invalidation path exists outside registerPage itself. -/
theorem pageCache_writes_amended :
    (∀ (st : LoaderState) (route : List Char) (regFn : Except JsErr JsModule),
      lookupRoute (registerPage st route regFn).pageCache route =
        some (registerEntry regFn)) ∧
    (∀ (st : LoaderState) (route r' : List Char) (regFn : Except JsErr JsModule),
      r' ≠ route →
      lookupRoute (registerPage st route regFn).pageCache r' =
        lookupRoute st.pageCache r') ∧
    (∀ (env : Env) (st : LoaderState) (pid : Nat) (route : List Char)
      (st' : LoaderState),
      loadPage env st pid route = .ok st' → st'.pageCache = st.pageCache) ∧
    (∀ (st : LoaderState) (url route : List Char),
      (loadScriptOnError st url route).pageCache = st.pageCache) := by
  refine ⟨?_, ?_, loadPage_pageCache_eq, ?_⟩
  · intro st route regFn
    unfold registerPage
    rw [emitRoute_pageCache_eq]
    exact lookup_setRoute_self st.pageCache route (registerEntry regFn)
  · intro st route r' regFn hne
    unfold registerPage
    rw [emitRoute_pageCache_eq]
    exact lookup_setRoute_other st.pageCache route r' (registerEntry regFn) hne
  · intro st url route
    unfold loadScriptOnError
    exact emitRoute_pageCache_eq st route (.failure (.pageLoadError url))

/-- C5 witness: the amended overwrite rule evaluated at a concrete state —
registering route slash-x writes the computed entry over the old one while
the entry of another route slash-y is unchanged. -/
theorem pageCache_writes_amended_witness :
    lookupRoute
      (registerPage
        (LoaderState.mk
          [(toL "/x", PageEntry.success 1 1), (toL "/y", PageEntry.success 9 9)]
          [] [] [] [])
        (toL "/x") (.ok (JsModule.mk none 4))).pageCache
      (toL "/y") =
    lookupRoute
      (LoaderState.mk
        [(toL "/x", PageEntry.success 1 1), (toL "/y", PageEntry.success 9 9)]
        [] [] [] []).pageCache
      (toL "/y") :=
  pageCache_writes_amended.2.1
    (LoaderState.mk
      [(toL "/x", PageEntry.success 1 1), (toL "/y", PageEntry.success 9 9)]
      [] [] [] [])
    (toL "/x") (toL "/y") (.ok (JsModule.mk none 4)) (by decide)

/-- C10: loadPage normalizes its route before any cache, loading-set or
event-key access, so for a non-root route with exactly one trailing slash
the call is literally the same state step as the call on the route with the
trailing slash removed: same cache entry read and written, same loading-set
entry, same event subscription key, same settlement. -/
theorem loadPage_trailing_slash_equiv (route : List Char)
    (hhead : route.head? = some '/')
    (hslash : hasTrailingSlash route = true)
    (h2 : endsWithTwoSlashes route = false)
    (hroot : route ≠ toL "/") :
    ∀ (env : Env) (st : LoaderState) (pid : Nat),
      loadPage env st pid route = loadPage env st pid (stripTrailingSlash route) := by
  intro env st pid
  have h1 : normalizeRoute route = .ok (stripTrailingSlash route) :=
    normalizeRoute_eq_strip route hhead hroot
  have hstriphead : (stripTrailingSlash route).head? = some '/' := by
    cases route with
    | nil => simp at hhead
    | cons a rest =>
      have ha : a = '/' := by simpa using hhead
      rw [stripTrailingSlash_head a rest hroot, ha]
  have h3 : normalizeRoute (stripTrailingSlash route) = .ok (stripTrailingSlash route) :=
    normalizeRoute_fixed _ hstriphead
      (Or.inl (not_trailing_of_stripTrailingSlash route h2))
  rw [loadPage_eq_norm env st pid route (stripTrailingSlash route) h1,
    loadPage_eq_norm env st pid (stripTrailingSlash route)
      (stripTrailingSlash route) h3]

/-- C10 witness: on the concrete route slash-foo-slash, loadPage is the same
step as on slash-foo. -/
theorem loadPage_trailing_slash_equiv_witness :
    loadPage (Env.mk true false false [] (toL "b") (toL "prefetch"))
      (LoaderState.mk [] [] [] [] []) 0 (toL "/foo/") =
    loadPage (Env.mk true false false [] (toL "b") (toL "prefetch"))
      (LoaderState.mk [] [] [] [] []) 0 (toL "/foo") :=
  loadPage_trailing_slash_equiv (toL "/foo/") (by decide) (by decide)
    (by decide) (by decide)
    (Env.mk true false false [] (toL "b") (toL "prefetch"))
    (LoaderState.mk [] [] [] [] []) 0

/-- The settlement state of the promise a loadPage call handed out, by its
identifier (first match in registration order). -/
def promiseState : List (Nat × PromiseState) → Nat → Option PromiseState
  | [], _ => none
  | (k, s) :: rest, pid => if k = pid then some s else promiseState rest pid

/-- A sequence of loadPage calls for a single route, one promise identifier
per call, run back to back on the same loader instance — the model of N
concurrent requests in the cooperative single-threaded scheduler. -/
def loadPages (env : Env) :
    LoaderState → List Char → List Nat → Except JsErr LoaderState
  | st, _, [] => .ok st
  | st, route, pid :: rest =>
    match loadPage env st pid route with
    | .error e => .error e
    | .ok st' => loadPages env st' route rest

/-- Unfolding lemma for one step of loadPages. -/
theorem loadPages_cons (env : Env) (st st1 : LoaderState) (route : List Char)
    (pid : Nat) (rest : List Nat)
    (h : loadPage env st pid route = .ok st1) :
    loadPages env st route (pid :: rest) = loadPages env st1 route rest := by
  have hstep : loadPages env st route (pid :: rest) =
      match loadPage env st pid route with
      | .error e => .error e
      | .ok st' => loadPages env st' route rest := rfl
  rw [hstep, h]

/-- A settled outcome is never the pending state. -/
theorem settledOf_ne_pending (payload : PageEntry) :
    settledOf payload ≠ PromiseState.pending := by
  cases payload <;> simp [settledOf]

/-- Settling one promise leaves the observed state of every other promise
unchanged. -/
theorem settlePromise_other (q pid : Nat) (payload : PageEntry) (hne : q ≠ pid) :
    ∀ ps : List (Nat × PromiseState),
      promiseState (settlePromise ps q payload) pid = promiseState ps pid := by
  intro ps
  induction ps with
  | nil => rfl
  | cons kv rest ih =>
    obtain ⟨k, s⟩ := kv
    simp only [settlePromise, List.map_cons]
    by_cases hcond : (k, s).1 = q ∧ (k, s).2 = PromiseState.pending
    · rw [if_pos hcond]
      have hk : k = q := hcond.1
      have hkpid : ¬ k = pid := by rw [hk]; exact hne
      simp only [promiseState, if_neg hkpid]
      exact ih
    · rw [if_neg hcond]
      by_cases hk : k = pid
      · simp only [promiseState, if_pos hk]
      · simp only [promiseState, if_neg hk]
        exact ih

/-- Settling a pending promise with a payload takes the payload's outcome. -/
theorem settlePromise_self_pending (pid : Nat) (payload : PageEntry) :
    ∀ ps : List (Nat × PromiseState),
      promiseState ps pid = some PromiseState.pending →
      promiseState (settlePromise ps pid payload) pid = some (settledOf payload) := by
  intro ps
  induction ps with
  | nil => intro h; cases h
  | cons kv rest ih =>
    obtain ⟨k, s⟩ := kv
    intro h
    simp only [settlePromise, List.map_cons]
    by_cases hk : k = pid
    · simp only [promiseState, if_pos hk] at h
      have hs : s = PromiseState.pending := by
        injection h
      rw [if_pos (by exact ⟨hk, hs⟩)]
      simp only [promiseState, if_pos hk]
    · simp only [promiseState, if_neg hk] at h
      by_cases hcond : (k, s).1 = pid ∧ (k, s).2 = PromiseState.pending
      · exact absurd hcond.1 hk
      · rw [if_neg hcond]
        simp only [promiseState, if_neg hk]
        exact ih h

/-- Settling an already settled promise leaves the settlement in place. -/
theorem settlePromise_keep (q pid : Nat) (payload : PageEntry) :
    ∀ ps : List (Nat × PromiseState),
      promiseState ps pid = some (settledOf payload) →
      promiseState (settlePromise ps q payload) pid = some (settledOf payload) := by
  intro ps
  induction ps with
  | nil => intro h; cases h
  | cons kv rest ih =>
    obtain ⟨k, s⟩ := kv
    intro h
    simp only [settlePromise, List.map_cons]
    by_cases hk : k = pid
    · simp only [promiseState, if_pos hk] at h
      have hs : s = settledOf payload := by injection h
      by_cases hcond : (k, s).1 = q ∧ (k, s).2 = PromiseState.pending
      · exfalso
        exact settledOf_ne_pending payload (hs ▸ hcond.2)
      · rw [if_neg hcond]
        simp only [promiseState, if_pos hk]
        exact h
    · simp only [promiseState, if_neg hk] at h
      by_cases hcond : (k, s).1 = q ∧ (k, s).2 = PromiseState.pending
      · rw [if_pos hcond]
        simp only [promiseState, if_neg hk]
        exact ih h
      · rw [if_neg hcond]
        simp only [promiseState, if_neg hk]
        exact ih h

/-- A settled promise stays settled across any further broadcast folds. -/
theorem foldSettle_keep (pid : Nat) (payload : PageEntry) :
    ∀ (l : List Nat) (ps : List (Nat × PromiseState)),
      promiseState ps pid = some (settledOf payload) →
      promiseState
        (l.foldl (fun ps q => settlePromise ps q payload) ps) pid =
        some (settledOf payload) := by
  intro l
  induction l with
  | nil => intro ps h; exact h
  | cons q rest ih =>
    intro ps h
    simp only [List.foldl_cons]
    exact ih _ (settlePromise_keep q pid payload ps h)

/-- Every promise in the broadcast list that was pending (or already settled
with the payload's outcome) observes the payload's outcome after the
broadcast fold. -/
theorem foldSettle_mem (pid : Nat) (payload : PageEntry) :
    ∀ (l : List Nat) (ps : List (Nat × PromiseState)),
      pid ∈ l →
      (promiseState ps pid = some PromiseState.pending ∨
        promiseState ps pid = some (settledOf payload)) →
      promiseState
        (l.foldl (fun ps q => settlePromise ps q payload) ps) pid =
        some (settledOf payload) := by
  intro l
  induction l with
  | nil => intro ps h; cases h
  | cons q rest ih =>
    intro ps hmem hP
    simp only [List.foldl_cons]
    by_cases hq : q = pid
    · subst hq
      have hstep : promiseState (settlePromise ps q payload) q =
          some (settledOf payload) := by
        rcases hP with hP | hP
        · exact settlePromise_self_pending q payload ps hP
        · exact settlePromise_keep q q payload ps hP
      exact foldSettle_keep q payload rest _ hstep
    · have hmem' : pid ∈ rest := by
        rcases List.mem_cons.mp hmem with h1 | h1
        · exact absurd h1.symm hq
        · exact h1
      have hP' : promiseState (settlePromise ps q payload) pid =
            some PromiseState.pending ∨
          promiseState (settlePromise ps q payload) pid =
            some (settledOf payload) := by
        rw [settlePromise_other q pid payload hq ps]
        exact hP
      exact ih _ hmem' hP'

/-- Looking a promise up past a block that does not contain it. -/
theorem promiseState_append_none (pid : Nat) :
    ∀ (xs ys : List (Nat × PromiseState)),
      promiseState xs pid = none →
      promiseState (xs ++ ys) pid = promiseState ys pid := by
  intro xs
  induction xs with
  | nil => intro ys _; rfl
  | cons kv rest ih =>
    intro ys h
    obtain ⟨k, s⟩ := kv
    by_cases hk : k = pid
    · simp only [promiseState, if_pos hk] at h
      cases h
    · simp only [promiseState, if_neg hk] at h
      simp only [List.cons_append, promiseState, if_neg hk]
      exact ih ys h

/-- Every member of a block of freshly registered pending promises reads as
pending. -/
theorem promiseState_pendingMap :
    ∀ (pids : List Nat) (pid : Nat), pid ∈ pids →
      promiseState (pids.map (fun q => (q, PromiseState.pending))) pid =
        some PromiseState.pending := by
  intro pids
  induction pids with
  | nil => intro pid h; cases h
  | cons q rest ih =>
    intro pid h
    by_cases hq : q = pid
    · simp only [List.map_cons, promiseState, if_pos hq]
    · have hmem : pid ∈ rest := by
        rcases List.mem_cons.mp h with h1 | h1
        · exact absurd h1.symm hq
        · exact h1
      simp only [List.map_cons, promiseState, if_neg hq]
      exact ih pid hmem

/-- Subscriptions of a concatenation are the concatenated subscriptions. -/
theorem subscribedPids_append (a b : List (List Char × Nat)) (r : List Char) :
    subscribedPids (a ++ b) r = subscribedPids a r ++ subscribedPids b r := by
  simp [subscribedPids, List.filter_append]

/-- A block of listeners all keyed by the same route subscribes exactly its
promise identifiers, in order. -/
theorem subscribedPids_map_self (r : List Char) :
    ∀ pids : List Nat,
      subscribedPids (pids.map (fun p => (r, p))) r = pids := by
  intro pids
  induction pids with
  | nil => rfl
  | cons p rest ih =>
    have hcons : subscribedPids ((r, p) :: rest.map (fun p => (r, p))) r =
        p :: subscribedPids (rest.map (fun p => (r, p))) r := by
      simp [subscribedPids, List.filter_cons]
    simp only [List.map_cons]
    rw [hcons, ih]

/-- A broadcast settles every subscribed promise that was pending (or already
settled with the same outcome) with the payload's outcome. -/
theorem emitRoute_settles (st : LoaderState) (route : List Char)
    (payload : PageEntry) (pid : Nat)
    (hmem : pid ∈ subscribedPids st.subscribers route)
    (hP : promiseState st.promises pid = some PromiseState.pending ∨
      promiseState st.promises pid = some (settledOf payload)) :
    promiseState (emitRoute st route payload).promises pid =
      some (settledOf payload) :=
  foldSettle_mem pid payload (subscribedPids st.subscribers route)
    st.promises hmem hP

/-- While a route is marked loading and uncached, each further loadPage call
for it just appends one pending promise and one listener - no new load
sequence. -/
theorem loadPages_loading (env : Env) (route nroute : List Char)
    (hn : normalizeRoute route = .ok nroute) :
    ∀ (pids : List Nat) (st : LoaderState),
      lookupRoute st.pageCache nroute = none →
      nroute ∈ st.loadingRoutes →
      loadPages env st route pids =
        .ok { st with
          promises := st.promises ++
            pids.map (fun p => (p, PromiseState.pending))
          subscribers := st.subscribers ++
            pids.map (fun p => (nroute, p)) } := by
  intro pids
  induction pids with
  | nil =>
    intro st _ _
    simp [loadPages]
  | cons pid rest ih =>
    intro st hc hl
    have hload : loadPage env st pid route = .ok
        { st with
          promises := st.promises ++ [(pid, PromiseState.pending)]
          subscribers := st.subscribers ++ [(nroute, pid)] } := by
      rw [loadPage_eq_norm env st pid route nroute hn]
      exact loadPageNorm_loading env st pid nroute hc hl
    rw [loadPages_cons env st _ route pid rest hload]
    have hstep := ih
      { st with
        promises := st.promises ++ [(pid, PromiseState.pending)]
        subscribers := st.subscribers ++ [(nroute, pid)] } hc hl
    rw [hstep]
    simp [List.append_assoc]

/-- C1: N concurrent loadPage calls (N at least two) for the same route,
made while the route is unregistered (no cache entry, not in the loading
set), issue exactly one dependency-resolution / script-injection sequence in
total, leave all N promises pending and attached to the same event key, and
a single completion broadcast for that route settles all N promises with the
same outcome — all resolved with the registered page and module, or all
rejected with the same error. -/
theorem loadPage_single_flight (env : Env) (st : LoaderState)
    (route nroute : List Char) (pids : List Nat)
    (hn : normalizeRoute route = .ok nroute)
    (hc : lookupRoute st.pageCache nroute = none)
    (hl : nroute ∉ st.loadingRoutes)
    (hfresh : ∀ pid ∈ pids, promiseState st.promises pid = none)
    (hlen : 2 ≤ pids.length) :
    ∃ st', loadPages env st route pids = .ok st' ∧
      (∃ a, st'.depLog = st.depLog ++ [a]) ∧
      (∀ pid ∈ pids, promiseState st'.promises pid = some PromiseState.pending) ∧
      (∀ payload : PageEntry, ∀ pid ∈ pids,
        promiseState (emitRoute st' nroute payload).promises pid =
          some (settledOf payload)) := by
  cases pids with
  | nil => simp at hlen
  | cons p rest =>
    have hhead : nroute.head? = some '/' := normalizeRoute_ok_head route nroute hn
    obtain ⟨a, ha⟩ := loadPageNorm_start env st p nroute hc hl hhead
    have hload : loadPage env st p route = .ok
        { st with
          promises := st.promises ++ [(p, PromiseState.pending)]
          subscribers := st.subscribers ++ [(nroute, p)]
          loadingRoutes := st.loadingRoutes ++ [nroute]
          depLog := st.depLog ++ [a] } := by
      rw [loadPage_eq_norm env st p route nroute hn]
      exact ha
    have hmem1 : nroute ∈
        ({ st with
          promises := st.promises ++ [(p, PromiseState.pending)]
          subscribers := st.subscribers ++ [(nroute, p)]
          loadingRoutes := st.loadingRoutes ++ [nroute]
          depLog := st.depLog ++ [a] } : LoaderState).loadingRoutes :=
      List.mem_append_right _ (by simp)
    have hrest := loadPages_loading env route nroute hn rest
      { st with
        promises := st.promises ++ [(p, PromiseState.pending)]
        subscribers := st.subscribers ++ [(nroute, p)]
        loadingRoutes := st.loadingRoutes ++ [nroute]
        depLog := st.depLog ++ [a] } hc hmem1
    have hpend : ∀ pid ∈ p :: rest,
        promiseState (st.promises ++
          (p :: rest).map (fun q => (q, PromiseState.pending))) pid =
          some PromiseState.pending := by
      intro pid hpid
      rw [promiseState_append_none pid st.promises _ (hfresh pid hpid)]
      exact promiseState_pendingMap (p :: rest) pid hpid
    refine ⟨{ st with
        promises := st.promises ++
          (p :: rest).map (fun q => (q, PromiseState.pending))
        subscribers := st.subscribers ++
          (p :: rest).map (fun q => (nroute, q))
        loadingRoutes := st.loadingRoutes ++ [nroute]
        depLog := st.depLog ++ [a] }, ?_, ⟨a, rfl⟩, hpend, ?_⟩
    · rw [loadPages_cons env st _ route p rest hload, hrest]
      simp [List.append_assoc]
    · intro payload pid hpid
      apply emitRoute_settles
      · have hsub : subscribedPids
            (st.subscribers ++ (p :: rest).map (fun q => (nroute, q))) nroute =
            subscribedPids st.subscribers nroute ++ (p :: rest) := by
          rw [subscribedPids_append, subscribedPids_map_self]
        rw [show ({ st with
            promises := st.promises ++
              (p :: rest).map (fun q => (q, PromiseState.pending))
            subscribers := st.subscribers ++
              (p :: rest).map (fun q => (nroute, q))
            loadingRoutes := st.loadingRoutes ++ [nroute]
            depLog := st.depLog ++ [a] } : LoaderState).subscribers =
          st.subscribers ++ (p :: rest).map (fun q => (nroute, q)) from rfl, hsub]
        exact List.mem_append_right _ hpid
      · exact Or.inl (hpend pid hpid)

/-- C1 witness: two concurrent loadPage calls for the unregistered route
slash-x on a fresh production loader issue one load sequence, leave both
promises pending, and any completion broadcast settles both promises with the
same outcome. -/
theorem loadPage_single_flight_witness :
    ∃ st', loadPages (Env.mk true false false [] (toL "b") (toL "prefetch"))
        (LoaderState.mk [] [] [] [] []) (toL "/x") [0, 1] = .ok st' ∧
      (∃ a, st'.depLog = [] ++ [a]) ∧
      (∀ pid ∈ [0, 1], promiseState st'.promises pid =
        some PromiseState.pending) ∧
      (∀ payload : PageEntry, ∀ pid ∈ [0, 1],
        promiseState (emitRoute st' (toL "/x") payload).promises pid =
          some (settledOf payload)) :=
  loadPage_single_flight (Env.mk true false false [] (toL "b") (toL "prefetch"))
    (LoaderState.mk [] [] [] [] []) (toL "/x") (toL "/x") [0, 1]
    (by decide) (by decide) (by decide) (fun _ _ => rfl) (by decide)

/-- Translation of getDependencies: look the route up in the resolved build
manifest; present entries map each raw asset path to a fully qualified url
under the asset prefix; an absent route emits a page-load failure event on
the route's event key and resolves to the empty list (the callback returns
normally in both cases — the first component is the list of events to emit,
the second the resolved dependency urls). -/
def getDependencies (env : Env)
    (manifest : List (List Char × List (List Char))) (route : List Char) :
    List (List Char × PageEntry) × List (List Char) :=
  match lookupRoute manifest route with
  | some urls =>
      ([], urls.map (fun url => env.assetBase ++ toL "/_next/" ++ encodeURI url))
  | none => ([(route, PageEntry.failure (.pageLoadError route))], [])

/-- C6: for a route absent from the build manifest, getDependencies both
emits exactly one failure event carrying the page-load error for that route
on the page-register event channel and resolves — it does not reject — with
the empty list of dependency urls. -/
theorem getDependencies_missing_route (env : Env)
    (manifest : List (List Char × List (List Char))) (route : List Char)
    (h : lookupRoute manifest route = none) :
    getDependencies env manifest route =
      ([(route, PageEntry.failure (JsErr.pageLoadError route))], []) := by
  unfold getDependencies
  rw [h]

/-- C6 witness: the empty manifest lacks route slash-x, so the call emits the
failure event and resolves empty. -/
theorem getDependencies_missing_route_witness :
    getDependencies (Env.mk true false false [] (toL "b") (toL "prefetch"))
      [] (toL "/x") =
      ([(toL "/x", PageEntry.failure (JsErr.pageLoadError (toL "/x")))], []) :=
  getDependencies_missing_route
    (Env.mk true false false [] (toL "b") (toL "prefetch")) [] (toL "/x")
    (by decide)

/-- Model of navigator.connection as read by prefetch. -/
structure NetConnection where
  saveData : Bool
  effectiveType : List Char
deriving DecidableEq, Repr

/-- Substring test, modelling the 2g regex test on the effective connection
type. -/
def hasSubstr (pat : List Char) : List Char → Bool
  | [] => isPrefixOfL pat []
  | c :: rest =>
    if isPrefixOfL pat (c :: rest) = true then true else hasSubstr pat rest

/-- Suffix test on the character-list model of strings. -/
def endsWithL (pat s : List Char) : Bool := isPrefixOfL pat.reverse s.reverse

/-- A link element injected into the document head: relation, href, and the
as attribute. -/
structure LinkTag where
  rel : List Char
  href : List Char
  asKind : List Char
deriving DecidableEq, Repr

/-- Observable outcome of one prefetch call: the link tags it injected and
whether it started the production dependency walk. -/
structure PrefetchOutcome where
  injected : List LinkTag
  depsWalked : Bool
deriving DecidableEq, Repr

/-- String interpolation of the possibly-undefined url into the dedupe
selector: undefined renders as the text undefined. -/
def renderOptUrl : Option (List Char) → List Char
  | none => toL "undefined"
  | some s => s

/-- The page's own static-bundle prefetch url:
assetPrefix1/_next/static/(encodeURIComponent buildId)/pages(encodeURI
assetPath)(ext), with ext selected by the modern-build flag together with
noModule support. -/
def staticBundleUrl (env : Env) (route : List Char) : List Char :=
  env.assetBase ++ toL "/_next/static/" ++ encodeURIComponent env.buildId ++
    toL "/pages" ++ encodeURI (getAssetPath route) ++
    (if env.modernBuild && env.hasNoModule then toL ".module.js" else toL ".js")

/-- The candidate url computed by prefetch: a dependency url verbatim; for a
page route, the static bundle url — but only outside production, so in
production the url stays undefined (none). -/
def prefetchUrl (env : Env) (route : List Char) (isDependency : Bool) :
    Except JsErr (Option (List Char)) :=
  if isDependency then .ok (some route)
  else if env.isProd then .ok none
  else
    match normalizeRoute route with
    | .error e => .error e
    | .ok r => .ok (some (staticBundleUrl env r))

/-- Body of the prefetch translation after the network check: compute the
candidate url, skip everything when a matching prefetch link already exists
(also skipping the dependency walk), otherwise inject the link when the url
is defined (style for css urls, script otherwise) and, in production for a
page route, start the dependency walk.  Injection and walk failures are
swallowed, so the call itself always resolves. -/
def prefetchBody (env : Env) (existingLinks : List (List Char × List Char))
    (route : List Char) (isDependency : Bool) : Except JsErr PrefetchOutcome :=
  match prefetchUrl env route isDependency with
  | .error e => .error e
  | .ok url =>
    if existingLinks.any (fun l =>
        l.1 = env.relPrefetch ∧ isPrefixOfL (renderOptUrl url) l.2 = true) then
      .ok (PrefetchOutcome.mk [] false)
    else
      .ok (PrefetchOutcome.mk
        (match url with
          | some u => [LinkTag.mk env.relPrefetch u
              (if endsWithL (toL ".css") u = true then toL "style"
               else toL "script")]
          | none => [])
        (env.isProd && !isDependency))

/-- Translation of PageLoader.prefetch: resolve immediately with no effect
when the connection reports save-data or a 2g effective type, otherwise run
the body. -/
def prefetch (env : Env) (conn : Option NetConnection)
    (existingLinks : List (List Char × List Char)) (route : List Char)
    (isDependency : Bool) : Except JsErr PrefetchOutcome :=
  match conn with
  | some cn =>
    if cn.saveData = true ∨ hasSubstr (toL "2g") cn.effectiveType = true then
      .ok (PrefetchOutcome.mk [] false)
    else prefetchBody env existingLinks route isDependency
  | none => prefetchBody env existingLinks route isDependency

/-- A string whose reversed form starts with the two characters of a js
extension read backwards is never a css url. -/
theorem isPrefixOfL_css_of_sj (rest : List Char) :
    isPrefixOfL ['s', 's', 'c', '.'] ('s' :: 'j' :: rest) = false := by
  show (if ('s' : Char) = 's' then isPrefixOfL ['s', 'c', '.'] ('j' :: rest)
    else false) = false
  rw [if_pos rfl]
  show (if ('s' : Char) = 'j' then isPrefixOfL ['c', '.'] rest
    else false) = false
  rw [if_neg (by decide)]

/-- A url ending in the plain js extension does not end in css. -/
theorem endsWithL_css_js (x : List Char) :
    endsWithL (toL ".css") (x ++ toL ".js") = false := by
  show isPrefixOfL (toL ".css").reverse (x ++ toL ".js").reverse = false
  rw [List.reverse_append]
  exact isPrefixOfL_css_of_sj ('.' :: x.reverse)

/-- A url ending in the module js extension does not end in css. -/
theorem endsWithL_css_modulejs (x : List Char) :
    endsWithL (toL ".css") (x ++ toL ".module.js") = false := by
  show isPrefixOfL (toL ".css").reverse (x ++ toL ".module.js").reverse = false
  rw [List.reverse_append]
  exact isPrefixOfL_css_of_sj ('.' :: 'e' :: 'l' :: 'u' :: 'd' :: 'o' :: 'm' ::
    '.' :: x.reverse)

/-- The static bundle url never carries the css extension. -/
theorem staticBundleUrl_not_css (env : Env) (route : List Char) :
    endsWithL (toL ".css") (staticBundleUrl env route) = false := by
  unfold staticBundleUrl
  by_cases hm : (env.modernBuild && env.hasNoModule) = true
  · rw [if_pos hm]
    exact endsWithL_css_modulejs _
  · rw [if_neg hm]
    exact endsWithL_css_js _

/-- C4 counterexample: in production mode a non-dependency prefetch call that
passes the network check and finds no existing prefetch link injects no link
at all — the url for the page's own static bundle is computed only outside
production, so the injected-link list is empty (only the dependency walk is
started), contradicting the claim that the static-bundle link is injected in
every build mode. -/
theorem prefetch_production_no_bundle_link :
    prefetch (Env.mk true false false [] (toL "b") (toL "prefetch"))
      none [] (toL "/foo") false =
      .ok (PrefetchOutcome.mk [] true) ∧
    prefetchUrl (Env.mk true false false [] (toL "b") (toL "prefetch"))
      (toL "/foo") false = .ok none := by
  exact ⟨by decide, by decide⟩

/-- C4 (amended): a non-dependency prefetch call that passes the network
check and finds no matching existing prefetch link injects exactly one link,
with the startup-selected prefetch or preload relation, for the page's own
static bundle at the url assetPrefix1/_next/static/(encoded
buildId)/pages(encoded assetPath)(ext) — ext being .module.js when the
modern-build flag holds together with noModule support and .js otherwise —
but only in non-production mode; in production the url is left undefined and
no such link is injected (only the dependency walk runs), as the
counterexample shows. -/
theorem prefetch_dev_bundle_link (env : Env) (conn : Option NetConnection)
    (existingLinks : List (List Char × List Char)) (route nroute : List Char)
    (hdev : env.isProd = false)
    (hnet : ∀ cn, conn = some cn →
      cn.saveData = false ∧ hasSubstr (toL "2g") cn.effectiveType = false)
    (hn : normalizeRoute route = .ok nroute)
    (hnolink : ∀ l ∈ existingLinks,
      ¬(l.1 = env.relPrefetch ∧
        isPrefixOfL (staticBundleUrl env nroute) l.2 = true)) :
    prefetch env conn existingLinks route false =
      .ok (PrefetchOutcome.mk
        [LinkTag.mk env.relPrefetch (staticBundleUrl env nroute) (toL "script")]
        false) := by
  have hurl : prefetchUrl env route false =
      .ok (some (staticBundleUrl env nroute)) := by
    unfold prefetchUrl
    simp [hdev, hn]
  have hany : existingLinks.any (fun l =>
      l.1 = env.relPrefetch ∧
      isPrefixOfL (renderOptUrl (some (staticBundleUrl env nroute))) l.2 = true)
      = false := by
    rw [Bool.eq_false_iff]
    intro hc
    obtain ⟨l, hl, hpl⟩ := List.any_eq_true.mp hc
    exact hnolink l hl (of_decide_eq_true hpl)
  have hbody : prefetchBody env existingLinks route false =
      .ok (PrefetchOutcome.mk
        [LinkTag.mk env.relPrefetch (staticBundleUrl env nroute) (toL "script")]
        false) := by
    unfold prefetchBody
    rw [hurl]
    simp only [hany, Bool.false_eq_true, if_false]
    simp [staticBundleUrl_not_css, hdev]
  unfold prefetch
  cases conn with
  | none => exact hbody
  | some cn =>
    obtain ⟨h1, h2⟩ := hnet cn rfl
    show (if cn.saveData = true ∨ hasSubstr (toL "2g") cn.effectiveType = true
        then Except.ok (PrefetchOutcome.mk [] false)
        else prefetchBody env existingLinks route false) = _
    rw [if_neg (by simp [h1, h2])]
    exact hbody

/-- C4 witness: on a development loader with no connection information and an
empty document, prefetching route slash-foo injects exactly the bundle link
with the prefetch relation. -/
theorem prefetch_dev_bundle_link_witness :
    prefetch (Env.mk false false false [] (toL "b") (toL "prefetch"))
      none [] (toL "/foo") false =
      .ok (PrefetchOutcome.mk
        [LinkTag.mk (toL "prefetch")
          (staticBundleUrl (Env.mk false false false [] (toL "b") (toL "prefetch"))
            (toL "/foo"))
          (toL "script")]
        false) :=
  prefetch_dev_bundle_link
    (Env.mk false false false [] (toL "b") (toL "prefetch"))
    none [] (toL "/foo") (toL "/foo")
    (by decide)
    (fun cn h => by cases h)
    (by decide)
    (fun l hl => by cases hl)

/-- A JavaScript value as it appears in a query object or a route-match
result: a string or an array of strings. -/
inductive JsVal where
  | str (s : List Char)
  | arr (a : List (List Char))
deriving DecidableEq, Repr

/-- Split a string on a separator character, keeping empty segments, as the
segment view of a path. -/
def splitOn (sep : Char) : List Char → List (List Char)
  | [] => [[]]
  | c :: rest =>
    match splitOn sep rest with
    | [] => if c = sep then [[], []] else [[c]]
    | s :: ss => if c = sep then [] :: s :: ss else (c :: s) :: ss

/-- Modelled from the spec: the pathname part of Node url.parse restricted to
the path-only hrefs this module passes it — everything before the first
question mark or hash. -/
def pathnameOf (href : List Char) : List Char :=
  href.takeWhile (fun c => ¬(c = '?') ∧ ¬(c = '#'))

/-- Modelled from the spec: the raw query string of Node url.parse —
everything between the first question mark and the hash. -/
def queryStringOf (href : List Char) : List Char :=
  match href.dropWhile (fun c => ¬(c = '?') ∧ ¬(c = '#')) with
  | '?' :: t => t.takeWhile (fun c => ¬(c = '#'))
  | _ => []

/-- Modelled from the spec: the parsed query object of Node url.parse with
query parsing enabled, as the supplied fallback mapping of parameter values —
each ampersand-separated pair contributes one string-valued key. -/
def parseQueryString (qs : List Char) : List (List Char × JsVal) :=
  if qs = [] then []
  else (splitOn '&' qs).map (fun pair =>
    (pair.takeWhile (fun c => ¬(c = '=')),
     JsVal.str ((pair.dropWhile (fun c => ¬(c = '='))).drop 1)))

/-- The shape of one dynamic parameter group: whether it is a
repeated-segment (catch-all) parameter and whether it is optional. -/
structure GroupInfo where
  repeated : Bool
  optional : Bool
deriving DecidableEq, Repr

/-- Strip a leading triple-dot catch-all marker from a parameter name,
reporting whether it was present. -/
def stripDots (inner : List Char) : List Char × Bool :=
  if isPrefixOfL (toL "...") inner = true then (inner.drop 3, true)
  else (inner, false)

/-- Modelled from the spec: recognition of one parameter segment of a route
pattern, as used by the route-regex module that is not part of this
repository slice — a bracketed segment is a parameter, doubled brackets mark
it optional, a triple-dot prefix marks it repeated. -/
def parseParamSegment (seg : List Char) : Option (List Char × GroupInfo) :=
  if isPrefixOfL (toL "[[") seg = true ∧ endsWithL (toL "]]") seg = true ∧
      5 ≤ seg.length then
    let inner := stripDots ((seg.drop 2).dropLast.dropLast)
    some (inner.1, GroupInfo.mk inner.2 true)
  else if isPrefixOfL (toL "[") seg = true ∧ endsWithL (toL "]") seg = true ∧
      3 ≤ seg.length then
    let inner := stripDots ((seg.drop 1).dropLast)
    some (inner.1, GroupInfo.mk inner.2 false)
  else none

/-- Modelled from the spec: the parameter-group table of getRouteRegex — the
route pattern's parameter segments in order of appearance, each with its
repeat and optional flags. -/
def routeGroups (route : List Char) : List (List Char × GroupInfo) :=
  (splitOn '/' route).filterMap parseParamSegment

/-- Modelled from the spec: isDynamicRoute — a route is dynamic when some
path segment is a parameter segment. -/
def isDynamicRoute (route : List Char) : Bool :=
  (splitOn '/' route).any (fun seg => (parseParamSegment seg).isSome)

/-- Modelled from the spec: segment-wise matching of a route pattern against
a concrete path, the behavior of getRouteMatcher composed with getRouteRegex —
literal segments must coincide, a parameter segment captures one nonempty
path segment as a string, a repeated (catch-all) parameter must come last and
captures all remaining segments as an array (at least one unless optional);
no match yields none (the matcher's false). -/
def matchSegments : List (List Char) → List (List Char) →
    Option (List (List Char × JsVal))
  | [], [] => some []
  | [], _ :: _ => none
  | pseg :: prest, pathSegs =>
    match parseParamSegment pseg with
    | none =>
      match pathSegs with
      | [] => none
      | s :: srest => if s = pseg then matchSegments prest srest else none
    | some (name, info) =>
      if info.repeated then
        if prest ≠ [] then none
        else if pathSegs = [] then
          if info.optional then some [] else none
        else some [(name, JsVal.arr pathSegs)]
      else
        match pathSegs with
        | [] => none
        | s :: srest =>
          if s = [] then none
          else
            match matchSegments prest srest with
            | none => none
            | some m => some ((name, JsVal.str s) :: m)

/-- Modelled from the spec: the dynamic route matcher applied to a concrete
pathname. -/
def routeMatcher (route path : List Char) : Option (List (List Char × JsVal)) :=
  matchSegments (splitOn '/' route) (splitOn '/' path)

/-- Join strings with a separator character. -/
def joinSep (sep : Char) : List (List Char) → List Char
  | [] => []
  | [x] => x
  | x :: y :: rest => x ++ sep :: joinSep sep (y :: rest)

/-- First occurrence replacement, the behavior of string replace with a
string pattern: rewrite the first occurrence of the pattern, leave the
string unchanged when the pattern does not occur. -/
def replaceFirstAux (pat rep : List Char) : List Char → List Char
  | [] => []
  | c :: rest =>
    if isPrefixOfL pat (c :: rest) = true then rep ++ (c :: rest).drop pat.length
    else c :: replaceFirstAux pat rep rest

/-- JavaScript string replace with a string pattern: an empty pattern matches
at position zero and prepends the replacement. -/
def replaceFirst (s pat rep : List Char) : List Char :=
  if pat = [] then rep ++ s else replaceFirstAux pat rep s

/-- Uri encoding of one non-repeated parameter value: a string is encoded
directly, an array is first coerced to its comma-joined string form. -/
def encodeParamValue : JsVal → List Char
  | .str s => encodeURIComponent s
  | .arr a => encodeURIComponent (joinSep ',' a)

/-- Uri encoding of one repeated (catch-all) parameter value: a non-array is
first wrapped into a one-element array, then the elements are encoded one by
one and joined with slashes. -/
def encodeRepeatedValue : JsVal → List Char
  | .str s => joinSep '/' ([s].map encodeURIComponent)
  | .arr a => joinSep '/' (a.map encodeURIComponent)

/-- One iteration of the interpolation loop: build the bracketed token of the
parameter (dots for a repeated group, doubled brackets for an optional one)
and substitute the encoded value for its first occurrence in the
accumulated route. -/
def interpolateStep (info : GroupInfo) (param : List Char) (v : JsVal)
    (acc : List Char) : List Char :=
  replaceFirst acc
    (if info.optional then
      toL "[" ++ (toL "[" ++ (if info.repeated then toL "..." else []) ++
        param ++ toL "]") ++ toL "]"
     else
      toL "[" ++ (if info.repeated then toL "..." else []) ++ param ++ toL "]")
    (if info.repeated then encodeRepeatedValue v else encodeParamValue v)

/-- The interpolation loop of getDataHref (the every-callback with its
short-circuiting assignment): parameters are substituted in group order; a
parameter absent from the match object, or a substitution that empties the
route, aborts the whole interpolation with the empty result. -/
def interpolate :
    List (List Char × GroupInfo) → List (List Char × JsVal) → List Char →
    List Char
  | [], _, acc => acc
  | (param, info) :: rest, dynMatches, acc =>
    match lookupRoute dynMatches param with
    | none => []
    | some v =>
      if interpolateStep info param v acc = [] then []
      else interpolate rest dynMatches (interpolateStep info param v acc)

/-- Unfolding lemma for one interpolation step. -/
theorem interpolate_cons (param : List Char) (info : GroupInfo)
    (rest : List (List Char × GroupInfo)) (dynMatches : List (List Char × JsVal))
    (acc : List Char) :
    interpolate ((param, info) :: rest) dynMatches acc =
      match lookupRoute dynMatches param with
      | none => []
      | some v =>
        if interpolateStep info param v acc = [] then []
        else interpolate rest dynMatches (interpolateStep info param v acc) := rfl

/-- The data-file url for an interpolated route:
assetPrefix1/_next/data/(buildId)(assetPath).json. -/
def getHrefForSlug (env : Env) (path : List Char) : List Char :=
  env.assetBase ++ toL "/_next/data/" ++ env.buildId ++ getAssetPath path ++
    toL ".json"

/-- Translation of getDataHref: parse pathname and query out of the href and
the pathname out of the browser path, normalize the route, and for a dynamic
route take parameter values preferentially from matching the pattern against
the browser pathname, falling back to the parsed query when the match fails;
interpolate the groups into the route and return the data url, or the empty
string when interpolation aborts (the caller treats a falsy result as skip);
a static route maps directly to its data url. -/
def getDataHref (env : Env) (href asPath : List Char) :
    Except JsErr (List Char) :=
  match normalizeRoute (pathnameOf href) with
  | .error e => .error e
  | .ok route =>
    if isDynamicRoute route = true then
      .ok (if interpolate (routeGroups route)
          (match routeMatcher route (pathnameOf asPath) with
            | some m => m
            | none => parseQueryString (queryStringOf href)) route = [] then []
        else getHrefForSlug env (interpolate (routeGroups route)
          (match routeMatcher route (pathnameOf asPath) with
            | some m => m
            | none => parseQueryString (queryStringOf href)) route))
    else .ok (getHrefForSlug env route)

/-- C7: dynamic data-href resolution takes parameter values from matching the
pattern against the concrete path, falling back to the parsed query when the
match fails; a single-parameter pattern interpolates the matched segment, a
catch-all pattern joins its uri-encoded segments with slashes; and a required
parameter with no value in the matches aborts the whole interpolation with
the empty result, which the caller treats as skip.  Concretely:
slash-posts-id with path slash-posts-42 resolves to the slash-posts-42 data
url, the catch-all slug pattern with path slash-posts-a-b resolves to the
slash-posts-a-b data url, a pattern requiring id matched against a path
lacking it and an empty query yields the empty (skip) result, and the same
pattern with the value supplied in the href query falls back to the query. -/
theorem getDataHref_dynamic_resolution :
    (∀ env : Env, getDataHref env (toL "/posts/[id]") (toL "/posts/42") =
      .ok (env.assetBase ++ toL "/_next/data/" ++ env.buildId ++
        toL "/posts/42" ++ toL ".json")) ∧
    (∀ env : Env, getDataHref env (toL "/posts/[...slug]") (toL "/posts/a/b") =
      .ok (env.assetBase ++ toL "/_next/data/" ++ env.buildId ++
        toL "/posts/a/b" ++ toL ".json")) ∧
    (∀ env : Env, getDataHref env (toL "/posts/[id]") (toL "/posts") =
      .ok []) ∧
    (∀ env : Env, getDataHref env (toL "/posts/[id]?id=7") (toL "/elsewhere") =
      .ok (env.assetBase ++ toL "/_next/data/" ++ env.buildId ++
        toL "/posts/7" ++ toL ".json")) ∧
    (∀ (groups : List (List Char × GroupInfo))
      (dynMatches : List (List Char × JsVal)) (acc param : List Char)
      (info : GroupInfo),
      (param, info) ∈ groups → lookupRoute dynMatches param = none →
      interpolate groups dynMatches acc = []) := by
  refine ⟨fun _ => rfl, fun _ => rfl, fun _ => rfl, fun _ => rfl, ?_⟩
  intro groups
  induction groups with
  | nil =>
    intro dynMatches acc param info h _
    cases h
  | cons g rest ih =>
    intro dynMatches acc param info hmem hnone
    obtain ⟨q, i⟩ := g
    rw [interpolate_cons]
    rcases List.mem_cons.mp hmem with heq | hmem'
    · have hq : q = param := by
        injection heq with h1 h2
        exact h1.symm
      rw [hq, hnone]
    · cases hlook : lookupRoute dynMatches q with
      | none => rfl
      | some v =>
        show (if interpolateStep i q v acc = [] then []
          else interpolate rest dynMatches (interpolateStep i q v acc)) = []
        by_cases hacc : interpolateStep i q v acc = []
        · rw [if_pos hacc]
        · rw [if_neg hacc]
          exact ih dynMatches _ param info hmem' hnone

/-- C7 witness: the abort rule evaluated concretely — a group table requiring
the id parameter against an empty match object empties the interpolation. -/
theorem getDataHref_dynamic_resolution_witness :
    interpolate [(toL "id", GroupInfo.mk false false)] []
      (toL "/posts/[id]") = [] :=
  getDataHref_dynamic_resolution.2.2.2.2
    [(toL "id", GroupInfo.mk false false)] [] (toL "/posts/[id]")
    (toL "id") (GroupInfo.mk false false) (by decide) (by decide)
